import Mathlib

/-!
# Ligand Record Extractor — verification of `parse_sdf_with_scores`

A shallow embedding of the score-extraction core of
`pdb_sdf_docking_viewer.py`.  Python strings are modelled as `List Char`,
Python floats as `ℚ` (exact decimal values), the external chemistry parser
(`Chem.MolFromMolBlock` together with `GetPropsAsDict` and the two
descriptor computations) as an abstract function `Str → Option Mol`, where
`none` covers both a raised exception and a `None` result.  All string
operations used by the Python code (`str.split(sep)`, `str.split()`,
`str.strip`, `str.lower`, substring membership, `float(...)`) are defined
below as executable structural recursions.
-/

namespace VinaRedocker

/-- A Python string, modelled as its list of characters. -/
abbrev Str := List Char

/-- Does `pat` occur as a prefix of `s`?  (Helper for substring search and
splitting; `[]` matches everywhere, as in Python.) -/
def matchesAt : Str → Str → Bool
  | [], _ => true
  | _ :: _, [] => false
  | p :: ps, c :: cs => if p = c then matchesAt ps cs else false

/-- Python `pat in s`: does `pat` occur as a contiguous substring of `s`? -/
def containsSub (pat : Str) : Str → Bool
  | [] => pat.isEmpty
  | c :: rest => matchesAt pat (c :: rest) || containsSub pat rest

/-- Worker for `pySplitOn`: while `skip > 0` we are still inside a matched
separator and consume characters without testing for matches. -/
def splitGo (sep : Str) : Str → ℕ → List Str
  | [], _ => [[]]
  | _ :: rest, Nat.succ k => splitGo sep rest k
  | c :: rest, 0 =>
    if matchesAt sep (c :: rest) then
      [] :: splitGo sep rest (sep.length - 1)
    else
      match splitGo sep rest 0 with
      | [] => [[c]]
      | t :: ts => (c :: t) :: ts

/-- Python `s.split(sep)` for a non-empty separator: split `s` at every
non-overlapping occurrence of `sep`, keeping empty fields.  (Python raises
on an empty separator; the program only uses `"$$$$"` and `"\n"`.) -/
def pySplitOn (sep s : Str) : List Str := splitGo sep s 0

/-- Python `s.strip()`: remove leading and trailing whitespace. -/
def pyStrip (s : Str) : Str :=
  (((s.dropWhile Char.isWhitespace).reverse).dropWhile Char.isWhitespace).reverse

/-- Python `s.lower()`. -/
def pyLower (s : Str) : Str := s.map Char.toLower

/-- Split at every single whitespace character, keeping empty fields. -/
def splitWsAll : Str → List Str
  | [] => [[]]
  | c :: rest =>
    if c.isWhitespace then [] :: splitWsAll rest
    else
      match splitWsAll rest with
      | [] => [[c]]
      | t :: ts => (c :: t) :: ts

/-- Python `s.split()` (no argument): the whitespace-separated tokens of
`s`, with no empty tokens. -/
def wsTokens (s : Str) : List Str := (splitWsAll s).filter (fun t => ¬ t.isEmpty)

/-- Numeric value of a list of decimal digit characters. -/
def digitsToNat (ds : Str) : ℕ := ds.foldl (fun acc c => 10 * acc + (c.toNat - 48)) 0

/-- Parse an unsigned decimal mantissa (`digits`, `digits.digits`,
`digits.` or `.digits`), returning the integer part, the fractional part
and the number of fractional digits, together with the unconsumed rest. -/
def parseMantissa (cs : Str) : Option ((ℕ × ℕ × ℕ) × Str) :=
  let ip := cs.takeWhile Char.isDigit
  let rest := cs.dropWhile Char.isDigit
  match rest with
  | '.' :: r2 =>
    let fp := r2.takeWhile Char.isDigit
    if ip.isEmpty && fp.isEmpty then none
    else some ((digitsToNat ip, digitsToNat fp, fp.length), r2.dropWhile Char.isDigit)
  | _ => if ip.isEmpty then none else some ((digitsToNat ip, 0, 0), rest)

/-- Parse an optional exponent part (`e`/`E`, optional sign, digits).  If
no `e`/`E` is present nothing is consumed and the exponent is `0`; a bare
`e` with no digits is a parse error. -/
def parseExpPart : Str → Option (ℤ × Str)
  | [] => some (0, [])
  | c :: rest =>
    if c = 'e' ∨ c = 'E' then
      match rest with
      | '+' :: r2 =>
        let ds := r2.takeWhile Char.isDigit
        if ds.isEmpty then none
        else some ((digitsToNat ds : ℤ), r2.dropWhile Char.isDigit)
      | '-' :: r2 =>
        let ds := r2.takeWhile Char.isDigit
        if ds.isEmpty then none
        else some (-(digitsToNat ds : ℤ), r2.dropWhile Char.isDigit)
      | _ =>
        let ds := rest.takeWhile Char.isDigit
        if ds.isEmpty then none
        else some ((digitsToNat ds : ℤ), rest.dropWhile Char.isDigit)
    else some (0, c :: rest)

/-- The exact rational value of a parsed decimal: sign, integer part,
fractional part over `10 ^ fd`, times the power-of-ten exponent. -/
def floatVal (neg : Bool) (ip fp fd : ℕ) (e : ℤ) : ℚ :=
  (if neg then -1 else 1) * ((ip : ℚ) + (fp : ℚ) / (10 : ℚ) ^ fd) * (10 : ℚ) ^ e

/-- Python `float(s)` on its ordinary decimal forms (optional surrounding
whitespace, optional sign, decimal mantissa, optional exponent), with the
value taken exactly in `ℚ`; `none` models a raised `ValueError`. -/
def pyFloat? (s : Str) : Option ℚ :=
  match pyStrip s with
  | [] => none
  | t =>
    let sc : Bool × Str :=
      match t with
      | '+' :: r => (false, r)
      | '-' :: r => (true, r)
      | _ => (false, t)
    match parseMantissa sc.2 with
    | none => none
    | some (m, rest) =>
      match parseExpPart rest with
      | none => none
      | some (e, rest2) =>
        if rest2.isEmpty then some (floatVal sc.1 m.1 m.2.1 m.2.2 e) else none

/-- Result of the external chemistry parser on one record block: the
property mapping (`GetPropsAsDict`, values as raw text) and the two
descriptor values (`MolWt`, `MolLogP`). -/
structure Mol where
  props : List (Str × Str)
  mw : ℚ
  logp : ℚ
deriving DecidableEq

/-- One entry of the list built by `parse_sdf_with_scores` (the Python
dict of line 67-76 of `pdb_sdf_docking_viewer.py`). -/
structure LigandRecord where
  mol : Mol
  mol_block : Str
  index : ℕ
  score : ℚ
  properties : List (Str × Str)
  mw : ℚ
  logp : ℚ
  name : Str
deriving DecidableEq

/-- Python `key in props` / `props[key]` on the property mapping. -/
def lookupProp (props : List (Str × Str)) (k : Str) : Option Str :=
  match props with
  | [] => none
  | (k', v) :: rest => if k' = k then some v else lookupProp rest k

/-- The record separator `"$$$$"`. -/
def dollarSep : Str := "$$$$".data

/-- The line separator `"\n"`. -/
def nlSep : Str := "\n".data

/-- The substring searched for by the raw-text fallback. -/
def scoreSub : Str := "score".data

/-- The property key used for name resolution. -/
def nameKey : Str := "_Name".data

/-- The synthetic fallback name, `Ligand_` followed by the decimal of
`i + 1`. -/
def ligandName (i : ℕ) : Str := "Ligand_".data ++ (Nat.repr (i + 1)).data

/-- The candidate key list of line 42: `docking_score`, `score`,
`vina_score`, `affinity`, `binding_energy`, in that order. -/
def score_keys : List Str :=
  ["docking_score".data, "score".data, "vina_score".data, "affinity".data,
    "binding_energy".data]

/-- Step 1 of score resolution (lines 45-51): for each key in order, if
present in the property mapping try `float` on its value; on success stop,
on failure continue with the next key. -/
def scoreFromProps (keys : List Str) (props : List (Str × Str)) : Option ℚ :=
  match keys with
  | [] => none
  | k :: ks =>
    match lookupProp props k with
    | none => scoreFromProps ks props
    | some v =>
      match pyFloat? v with
      | none => scoreFromProps ks props
      | some q => some q

/-- Step 2 of score resolution (lines 54-61): scan the block's lines; on a
line whose lowering contains `"score"`, try `float` of its last
whitespace-separated token; `IndexError` (no tokens) or `ValueError`
continues with the next line. -/
def scoreFromLines (lines : List Str) : Option ℚ :=
  match lines with
  | [] => none
  | line :: rest =>
    if containsSub scoreSub (pyLower line) then
      match (wsTokens line).getLast? with
      | none => scoreFromLines rest
      | some tok =>
        match pyFloat? tok with
        | none => scoreFromLines rest
        | some q => some q
    else scoreFromLines rest

/-- The score stored for a parsed block: step 1 on the properties, else
step 2 on the (stripped) block's lines, else the default `0.0`
(lines 42-65). -/
def blockScore (mol : Mol) (mol_block : Str) : ℚ :=
  match scoreFromProps score_keys mol.props with
  | some q => q
  | none =>
    match scoreFromLines (pySplitOn nlSep mol_block) with
    | some q => q
    | none => 0

/-- The dict appended for a successfully parsed block (lines 67-76). -/
def mkRecord (mol : Mol) (mol_block : Str) (i : ℕ) : LigandRecord where
  mol := mol
  mol_block := mol_block
  index := i
  score := blockScore mol mol_block
  properties := mol.props
  mw := mol.mw
  logp := mol.logp
  name := (lookupProp mol.props nameKey).getD (ligandName i)

/-- Process one candidate block of the `'$$$$'` split (lines 32-79): strip
it, skip it unless non-empty with more than 4 lines, run the external
parser, and on success build the record; a parser exception or `None`
result drops the block. -/
def processBlock (parse : Str → Option Mol) (i : ℕ) (raw : Str) :
    Option LigandRecord :=
  if pyStrip raw ≠ [] ∧ 4 < (pySplitOn nlSep (pyStrip raw)).length then
    match parse (pyStrip raw) with
    | some mol => some (mkRecord mol (pyStrip raw) i)
    | none => none
  else none

/-- The `for i, mol_block in enumerate(mol_blocks)` loop with its `append`
accumulator, starting at position `i`. -/
def processFrom (parse : Str → Option Mol) : ℕ → List Str → List LigandRecord
  | _, [] => []
  | i, b :: rest =>
    match processBlock parse i b with
    | some r => r :: processFrom parse (i + 1) rest
    | none => processFrom parse (i + 1) rest

/-- The comparison used by `ligands.sort(key=lambda x: x['score'])`. -/
def scoreLE (a b : LigandRecord) : Bool := decide (a.score ≤ b.score)

/-- The sort of line 82 (a stable ascending sort on `score`, as Python's
list sort with that key). -/
def sortByScore (l : List LigandRecord) : List LigandRecord :=
  l.mergeSort scoreLE

/-- The whole extraction (lines 27-83): split on the `$$$$` separator,
process each candidate block in order, sort the surviving records
ascending by score. -/
def parse_sdf_with_scores (parse : Str → Option Mol) (sdf_content : Str) :
    List LigandRecord :=
  sortByScore (processFrom parse 0 (pySplitOn dollarSep sdf_content))

/-! ## Concrete inputs used by the witnesses -/

/-- Witness data for C2: properties carrying both `docking_score = -8.5`
and `score = 1.0`. -/
def w2mol : Mol :=
  ⟨[("docking_score".data, "-8.5".data), ("score".data, "1.0".data)], 0, 0⟩

/-- The concrete five-line block used by the C2 witness. -/
def w2block : Str := "a\nb\nc\nd\ne".data

/-- The chemistry parser used by the C2 witness. -/
def w2parse (_s : Str) : Option Mol := some w2mol

/-- The parser used by the C3 counterexample: every block parses, with an
empty property mapping. -/
def c3parse (_s : Str) : Option Mol := some ⟨[], 0, 0⟩

/-- The C3 counterexample block: its first line containing `score` ends
in a token that does not parse as a float, a later line containing
`score` ends in `-7.5`. -/
def c3block : Str := "the score is abc\nx\ny\nz\nfinal score -7.5".data

/-- The record produced for the C3 counterexample block. -/
def c3rec : LigandRecord := mkRecord ⟨[], 0, 0⟩ c3block 0

/-- The property mapping of the C4 witness: a single irrelevant key. -/
def w4mol : Mol := ⟨[("foo".data, "bar".data)], 0, 0⟩

/-- The concrete five-line block used by the C4 witness. -/
def w4block : Str := "a\nb\nc\nd\ne".data

/-- The chemistry parser used by the C4 witness. -/
def w4parse (_s : Str) : Option Mol := some w4mol

/-- The property mapping of the C6 witness: it carries `_Name = LIG`. -/
def w6mol : Mol := ⟨[("_Name".data, "LIG".data)], 0, 0⟩

/-- The single-block input of the C6 witness. -/
def w6sdf : Str := "a\nb\nc\nd\ne".data

/-- The chemistry parser used by the C6 witness. -/
def w6parse (_s : Str) : Option Mol := some w6mol

/-- The record produced by the C6 witness input. -/
def w6rec : LigandRecord := mkRecord w6mol w6sdf 0

/-- The chemistry parser used by the C7 witness (never called). -/
def w7parse (_s : Str) : Option Mol := none

/-- First (parseable) block of the C8 witness. -/
def w8good1 : Str := "a\nb\nc\nd\ne".data

/-- The failing block of the C8 witness. -/
def w8bad : Str := "B\nB\nB\nB\nB".data

/-- Last (parseable) block of the C8 witness. -/
def w8good2 : Str := "p\nq\nr\ns\nt".data

/-- The chemistry parser of the C8 witness: fails exactly on `w8bad`. -/
def w8parse (s : Str) : Option Mol := if s = w8bad then none else some ⟨[], 0, 0⟩

/-- First record of the C9 witness (score `-1`). -/
def w9a : LigandRecord := ⟨⟨[], 0, 0⟩, [], 0, -1, [], 0, 0, []⟩

/-- Second record of the C9 witness (score `2`). -/
def w9b : LigandRecord := ⟨⟨[], 0, 0⟩, [], 1, 2, [], 0, 0, []⟩

/-! ## Helper lemmas -/

/-- A block that yields a record was parsed by the chemistry parser, and
the record is exactly `mkRecord` of the parse result. -/
theorem processBlock_eq_some {parse : Str → Option Mol} {i : ℕ} {raw : Str}
    {r : LigandRecord} (h : processBlock parse i raw = some r) :
    ∃ mol : Mol, parse (pyStrip raw) = some mol ∧ r = mkRecord mol (pyStrip raw) i := by
  unfold processBlock at h
  split at h
  · cases hp : parse (pyStrip raw) with
    | none => rw [hp] at h; simp at h
    | some mol =>
      rw [hp] at h
      simp only [Option.some.injEq] at h
      exact ⟨mol, rfl, h.symm⟩
  · simp at h

/-- The `index` field of a produced record is the loop counter. -/
theorem processBlock_index {parse : Str → Option Mol} {i : ℕ} {raw : Str}
    {r : LigandRecord} (h : processBlock parse i raw = some r) : r.index = i := by
  obtain ⟨mol, _, hr⟩ := processBlock_eq_some h
  rw [hr]; rfl

/-- The loop produces at most one record per candidate block. -/
theorem processFrom_length (parse : Str → Option Mol) (i : ℕ) (bl : List Str) :
    (processFrom parse i bl).length ≤ bl.length := by
  induction bl generalizing i with
  | nil => simp [processFrom]
  | cons b rest ih =>
    rw [processFrom]
    cases hb : processBlock parse i b with
    | some r => simpa using ih (i + 1)
    | none => exact le_trans (ih (i + 1)) (Nat.le_succ _)

/-- Every record of the loop output comes from the block at a definite
position, processed with the matching loop counter. -/
theorem mem_processFrom {parse : Str → Option Mol} {r : LigandRecord}
    {i : ℕ} {bl : List Str} (h : r ∈ processFrom parse i bl) :
    ∃ j, ∃ hj : j < bl.length, processBlock parse (i + j) (bl.get ⟨j, hj⟩) = some r := by
  induction bl generalizing i with
  | nil => simp [processFrom] at h
  | cons b rest ih =>
    rw [processFrom] at h
    cases hb : processBlock parse i b with
    | some r0 =>
      rw [hb] at h
      rcases List.mem_cons.mp h with h0 | h1
      · exact ⟨0, by simp, by simpa [h0] using hb⟩
      · obtain ⟨j, hj, hpb⟩ := ih h1
        refine ⟨j + 1, by simpa using hj, ?_⟩
        have harith : i + (j + 1) = i + 1 + j := by omega
        rw [harith]
        simpa using hpb
    | none =>
      rw [hb] at h
      obtain ⟨j, hj, hpb⟩ := ih h
      refine ⟨j + 1, by simpa using hj, ?_⟩
      have harith : i + (j + 1) = i + 1 + j := by omega
      rw [harith]
      simpa using hpb

/-- All indices produced from loop counter `i` onwards are at least `i`. -/
theorem processFrom_index_lb {parse : Str → Option Mol} {r : LigandRecord}
    {i : ℕ} {bl : List Str} (h : r ∈ processFrom parse i bl) : i ≤ r.index := by
  obtain ⟨j, hj, hpb⟩ := mem_processFrom h
  have := processBlock_index hpb
  omega

/-- The indices of the loop output are pairwise distinct. -/
theorem processFrom_map_index_nodup (parse : Str → Option Mol) (i : ℕ)
    (bl : List Str) :
    ((processFrom parse i bl).map LigandRecord.index).Nodup := by
  induction bl generalizing i with
  | nil => simp [processFrom]
  | cons b rest ih =>
    rw [processFrom]
    cases hb : processBlock parse i b with
    | none => exact ih (i + 1)
    | some r0 =>
      simp only [List.map_cons, List.nodup_cons]
      refine ⟨?_, ih (i + 1)⟩
      intro hmem
      obtain ⟨r', hr', hidx⟩ := List.mem_map.mp hmem
      have h1 : i + 1 ≤ r'.index := processFrom_index_lb hr'
      have h2 : r0.index = i := processBlock_index hb
      omega

/-- If no key of `keys` is present in the property mapping, step 1 of
score resolution fails. -/
theorem scoreFromProps_eq_none (props : List (Str × Str)) (keys : List Str)
    (h : ∀ k ∈ keys, lookupProp props k = none) :
    scoreFromProps keys props = none := by
  induction keys with
  | nil => rfl
  | cons k ks ih =>
    rw [scoreFromProps, h k (by simp)]
    exact ih (fun k' hk' => h k' (by simp [hk']))

/-- Key `docking_score` is the first candidate: if present with a
float-parseable value, step 1 returns exactly that value. -/
theorem scoreFromProps_docking (props : List (Str × Str)) (v : Str) (q : ℚ)
    (hv : lookupProp props "docking_score".data = some v)
    (hq : pyFloat? v = some q) :
    scoreFromProps score_keys props = some q := by
  rw [score_keys, scoreFromProps, hv]
  simp [hq]

/-- If no line contains `"score"` (case-insensitively), step 2 of score
resolution fails. -/
theorem scoreFromLines_eq_none (lines : List Str)
    (h : ∀ l ∈ lines, containsSub scoreSub (pyLower l) = false) :
    scoreFromLines lines = none := by
  induction lines with
  | nil => rfl
  | cons l rest ih =>
    rw [scoreFromLines, if_neg (by simp [h l (by simp)])]
    exact ih (fun l' hl' => h l' (by simp [hl']))

/-- Step 2 returns the value of the first matching line whose last
whitespace token parses as a float; earlier matching lines whose last
token does not parse (or which have no token) are skipped. -/
theorem scoreFromLines_first_success (pre post : List Str) (line : Str) (q : ℚ)
    (hpre : ∀ l ∈ pre, containsSub scoreSub (pyLower l) = true →
      ((wsTokens l).getLast?).bind pyFloat? = none)
    (hline : containsSub scoreSub (pyLower line) = true)
    (htok : ((wsTokens line).getLast?).bind pyFloat? = some q) :
    scoreFromLines (pre ++ line :: post) = some q := by
  induction pre with
  | nil =>
    simp only [List.nil_append]
    rw [scoreFromLines, if_pos hline]
    cases hg : (wsTokens line).getLast? with
    | none => rw [hg] at htok; simp at htok
    | some tok =>
      have hpf : pyFloat? tok = some q := by
        rw [hg] at htok; simpa using htok
      simp [hpf]
  | cons p pre ih =>
    simp only [List.cons_append]
    rw [scoreFromLines]
    have ihx : scoreFromLines (pre ++ line :: post) = some q :=
      ih (fun l hl hc => hpre l (by simp [hl]) hc)
    by_cases hp : containsSub scoreSub (pyLower p) = true
    · rw [if_pos hp]
      have hbind := hpre p (by simp) hp
      cases hg : (wsTokens p).getLast? with
      | none => exact ihx
      | some tok =>
        have hn : pyFloat? tok = none := by
          rw [hg] at hbind; simpa using hbind
        simp only [hn]
        exact ihx
    · rw [if_neg hp]
      exact ihx

/-- Stripping a whitespace-only string yields the empty string. -/
theorem pyStrip_eq_nil {s : Str} (h : ∀ c ∈ s, c.isWhitespace = true) :
    pyStrip s = [] := by
  unfold pyStrip
  have h1 : s.dropWhile Char.isWhitespace = [] := List.dropWhile_eq_nil_iff.mpr h
  rw [h1]
  rfl

/-- The `'$$$$'` split of a whitespace-only string is the single block
holding the whole string. -/
theorem splitGo_dollar_ws {s : Str} (h : ∀ c ∈ s, c.isWhitespace = true) :
    splitGo dollarSep s 0 = [s] := by
  induction s with
  | nil => rfl
  | cons c rest ih =>
    have hc : c.isWhitespace = true := h c (by simp)
    have hd : dollarSep = '$' :: '$' :: '$' :: '$' :: [] := rfl
    have hne : matchesAt dollarSep (c :: rest) = false := by
      rw [hd, matchesAt]
      rw [if_neg (fun he => by rw [← he] at hc; exact absurd hc (by decide))]
    rw [splitGo, if_neg (by simp [hne]), ih (fun c' hc' => h c' (by simp [hc']))]

/-- Processing a concatenation of block lists processes each part
independently, with the loop counter advanced past the first part. -/
theorem processFrom_append (parse : Str → Option Mol) (i : ℕ)
    (xs ys : List Str) :
    processFrom parse i (xs ++ ys) =
      processFrom parse i xs ++ processFrom parse (i + xs.length) ys := by
  induction xs generalizing i with
  | nil => simp [processFrom]
  | cons a xs ih =>
    simp only [List.cons_append, processFrom]
    have harith : i + (a :: xs).length = (i + 1) + xs.length := by
      simp [List.length_cons]; omega
    rw [harith]
    cases ha : processBlock parse i a with
    | some r => simp [ih (i + 1)]
    | none => simp [ih (i + 1)]

/-! ## Claim theorems -/

/-- C1: for every input file text, the sequence returned by
`parse_sdf_with_scores` is sorted ascending by score: every pair of
adjacent records `(a, b)` in the result satisfies `a.score ≤ b.score`. -/
theorem C1_output_sorted_by_score (parse : Str → Option Mol) (sdf : Str) :
    List.Chain' (fun a b : LigandRecord => a.score ≤ b.score)
      (parse_sdf_with_scores parse sdf) := by
  apply List.Pairwise.chain'
  have htrans : ∀ a b c : LigandRecord, scoreLE a b → scoreLE b c → scoreLE a c := by
    intro a b c hab hbc
    simp only [scoreLE, decide_eq_true_eq] at *
    exact le_trans hab hbc
  have htotal : ∀ a b : LigandRecord, scoreLE a b || scoreLE b a := by
    intro a b
    simp only [scoreLE, Bool.or_eq_true, decide_eq_true_eq]
    exact le_total a.score b.score
  have h := List.sorted_mergeSort htrans htotal
    (processFrom parse 0 (pySplitOn dollarSep sdf))
  exact h.imp (fun hab => by simpa [scoreLE] using hab)

/-- C2: any record block whose parsed property mapping holds the key
`docking_score` with a float-parseable value gets exactly that value as
its score, whatever other candidate keys are present. -/
theorem C2_docking_score_key_wins (parse : Str → Option Mol) (i : ℕ)
    (raw : Str) (mol : Mol) (v : Str) (q : ℚ) (r : LigandRecord)
    (hmol : parse (pyStrip raw) = some mol)
    (hv : lookupProp mol.props "docking_score".data = some v)
    (hq : pyFloat? v = some q)
    (hr : processBlock parse i raw = some r) :
    r.score = q := by
  obtain ⟨mol', hmol', hrec⟩ := processBlock_eq_some hr
  rw [hmol] at hmol'
  cases Option.some.inj hmol'
  rw [hrec]
  show blockScore mol (pyStrip raw) = q
  unfold blockScore
  rw [scoreFromProps_docking mol.props v q hv hq]

/-- Evaluation fact for the C2 witness: `float('-8.5')` is `-17/2`. -/
theorem w2_float : pyFloat? "-8.5".data = some (-(17 / 2 : ℚ)) := by
  have h : pyFloat? "-8.5".data = some (floatVal true 8 5 1 0) := rfl
  rw [h]
  norm_num [floatVal]

/-- Evaluation fact for the C2 witness: the block yields its record. -/
theorem w2_run : processBlock w2parse 0 w2block = some (mkRecord w2mol w2block 0) := rfl

/-- C2 witness: the hypotheses of `C2_docking_score_key_wins` hold at the
concrete inputs and the produced record's score is exactly `-8.5`. -/
theorem C2_witness :
    lookupProp w2mol.props "docking_score".data = some "-8.5".data ∧
    pyFloat? "-8.5".data = some (-(17 / 2 : ℚ)) ∧
    processBlock w2parse 0 w2block = some (mkRecord w2mol w2block 0) ∧
    (mkRecord w2mol w2block 0).score = -(17 / 2 : ℚ) :=
  ⟨by decide, w2_float, w2_run,
    C2_docking_score_key_wins w2parse 0 w2block w2mol
      "-8.5".data (-(17 / 2 : ℚ)) (mkRecord w2mol w2block 0) rfl
      (by decide) w2_float w2_run⟩

/-- Evaluation fact for C3: `float('-7.5')` is `-15/2`. -/
theorem c3_float : pyFloat? "-7.5".data = some (-(15 / 2 : ℚ)) := by
  have h : pyFloat? "-7.5".data = some (floatVal true 7 5 1 0) := rfl
  rw [h]
  norm_num [floatVal]

/-- Evaluation fact for C3: the raw-text scan of the block returns the
value of the fifth line, skipping the failed first matching line. -/
theorem c3_scan : scoreFromLines (pySplitOn nlSep c3block) = some (-(15 / 2 : ℚ)) := by
  rw [show pySplitOn nlSep c3block =
    ["the score is abc".data, "x".data, "y".data, "z".data,
      "final score -7.5".data] from by decide]
  exact scoreFromLines_first_success
    ["the score is abc".data, "x".data, "y".data, "z".data] []
    ("final score -7.5".data) (-(15 / 2 : ℚ))
    (by decide) (by decide)
    (by rw [show (wsTokens ("final score -7.5".data)).getLast? =
          some ("-7.5".data) from by decide]
        simpa using c3_float)

/-- Evaluation fact for C3: the block's stored score is `-15/2`. -/
theorem c3_score : blockScore ⟨[], 0, 0⟩ c3block = -(15 / 2 : ℚ) := by
  unfold blockScore
  rw [show scoreFromProps score_keys (Mol.mk [] 0 0).props = none from by decide,
    c3_scan]

/-- Evaluation fact for C3: the block yields its record. -/
theorem c3_run : processBlock c3parse 0 c3block = some c3rec := rfl

/-- C3 counterexample: the claim says that when the last token of the
first matching line fails to parse, no later matching line contributes a
score (so this block would default to `0.0`); the code instead continues
scanning and stores `-7.5` from the later matching line. -/
theorem C3_counterexample :
    (processBlock c3parse 0 c3block).map LigandRecord.score =
        some (-(15 / 2 : ℚ)) ∧
    (processBlock c3parse 0 c3block).map LigandRecord.score ≠ some 0 := by
  rw [c3_run]
  have hsc : c3rec.score = -(15 / 2 : ℚ) := c3_score
  constructor
  · simp only [Option.map_some']
    rw [hsc]
  · simp only [Option.map_some', ne_eq, Option.some.injEq, hsc]
    norm_num

/-- C3 (amended): for a block in which no known score property key yields
a float, the lines are scanned case-insensitively for the substring
`"score"`, and the score is the float parse of the last whitespace token
of the first matching line whose last token parses; a matching line whose
last token fails to parse (or which has no tokens) is skipped, and later
matching lines are still considered. -/
theorem C3_first_parsable_matching_line (parse : Str → Option Mol) (i : ℕ)
    (raw : Str) (mol : Mol) (r : LigandRecord) (pre post : List Str)
    (line : Str) (q : ℚ)
    (hmol : parse (pyStrip raw) = some mol)
    (hprops : scoreFromProps score_keys mol.props = none)
    (hsplit : pySplitOn nlSep (pyStrip raw) = pre ++ line :: post)
    (hpre : ∀ l ∈ pre, containsSub scoreSub (pyLower l) = true →
      ((wsTokens l).getLast?).bind pyFloat? = none)
    (hline : containsSub scoreSub (pyLower line) = true)
    (htok : ((wsTokens line).getLast?).bind pyFloat? = some q)
    (hr : processBlock parse i raw = some r) :
    r.score = q := by
  obtain ⟨mol', hmol', hrec⟩ := processBlock_eq_some hr
  rw [hmol] at hmol'
  cases Option.some.inj hmol'
  rw [hrec]
  show blockScore mol (pyStrip raw) = q
  unfold blockScore
  rw [hprops, hsplit,
    scoreFromLines_first_success pre post line q hpre hline htok]

/-- C3 witness: on the counterexample block the amended claim applies
with the fifth line as the first matching line whose token parses, giving
score `-7.5`. -/
theorem C3_witness :
    processBlock c3parse 0 c3block = some c3rec ∧
    c3rec.score = -(15 / 2 : ℚ) :=
  ⟨c3_run,
    C3_first_parsable_matching_line c3parse 0 c3block ⟨[], 0, 0⟩ c3rec
      ["the score is abc".data, "x".data, "y".data, "z".data] []
      ("final score -7.5".data) (-(15 / 2 : ℚ))
      rfl (by decide)
      (by rw [show pyStrip c3block = c3block from by decide]; decide)
      (by decide) (by decide)
      (by rw [show (wsTokens ("final score -7.5".data)).getLast? =
            some ("-7.5".data) from by decide]
          simpa using c3_float)
      c3_run⟩

/-- C4: a record block with no recognized score property key and no line
containing `"score"` (case-insensitively) gets score exactly `0.0`; the
`score` field is total, so a score is present on every output record. -/
theorem C4_default_score_zero (parse : Str → Option Mol) (i : ℕ)
    (raw : Str) (mol : Mol) (r : LigandRecord)
    (hmol : parse (pyStrip raw) = some mol)
    (hkeys : ∀ k ∈ score_keys, lookupProp mol.props k = none)
    (hlines : ∀ l ∈ pySplitOn nlSep (pyStrip raw),
      containsSub scoreSub (pyLower l) = false)
    (hr : processBlock parse i raw = some r) :
    r.score = 0 := by
  obtain ⟨mol', hmol', hrec⟩ := processBlock_eq_some hr
  rw [hmol] at hmol'
  cases Option.some.inj hmol'
  rw [hrec]
  show blockScore mol (pyStrip raw) = 0
  unfold blockScore
  rw [scoreFromProps_eq_none mol.props score_keys hkeys,
    scoreFromLines_eq_none _ hlines]

/-- Evaluation fact for the C4 witness: the block yields its record. -/
theorem w4_run : processBlock w4parse 0 w4block = some (mkRecord w4mol w4block 0) := rfl

/-- C4 witness: the hypotheses of `C4_default_score_zero` hold at the
concrete inputs and the produced record's score is `0`. -/
theorem C4_witness :
    (∀ k ∈ score_keys, lookupProp w4mol.props k = none) ∧
    (∀ l ∈ pySplitOn nlSep (pyStrip w4block),
      containsSub scoreSub (pyLower l) = false) ∧
    processBlock w4parse 0 w4block = some (mkRecord w4mol w4block 0) ∧
    (mkRecord w4mol w4block 0).score = 0 :=
  ⟨by decide, by decide, w4_run,
    C4_default_score_zero w4parse 0 w4block w4mol
      (mkRecord w4mol w4block 0) rfl (by decide) (by decide) w4_run⟩

/-- C5: the number of output records is at most the number of blocks of
the `'$$$$'` split, no two output records share an `index`, and every
record's `index` is the zero-based position of its block in the original
split order. -/
theorem C5_counts_and_indices (parse : Str → Option Mol) (sdf : Str) :
    (parse_sdf_with_scores parse sdf).length ≤ (pySplitOn dollarSep sdf).length ∧
    ((parse_sdf_with_scores parse sdf).map LigandRecord.index).Nodup ∧
    ∀ r ∈ parse_sdf_with_scores parse sdf,
      ∃ h : r.index < (pySplitOn dollarSep sdf).length,
        processBlock parse r.index
          ((pySplitOn dollarSep sdf).get ⟨r.index, h⟩) = some r := by
  have hperm : List.Perm (parse_sdf_with_scores parse sdf)
      (processFrom parse 0 (pySplitOn dollarSep sdf)) :=
    List.mergeSort_perm _ _
  refine ⟨?_, ?_, ?_⟩
  · rw [hperm.length_eq]
    exact processFrom_length parse 0 _
  · exact ((hperm.map LigandRecord.index).nodup_iff).mpr
      (processFrom_map_index_nodup parse 0 _)
  · intro r hr
    have hr' : r ∈ processFrom parse 0 (pySplitOn dollarSep sdf) :=
      hperm.mem_iff.mp hr
    obtain ⟨j, hj, hpb⟩ := mem_processFrom hr'
    have hpb' : processBlock parse j ((pySplitOn dollarSep sdf).get ⟨j, hj⟩) = some r := by
      simpa using hpb
    have hidx : r.index = j := by
      have := processBlock_index hpb
      omega
    rw [hidx]
    exact ⟨hj, hpb'⟩

/-- C6: every output record's name is the parsed `_Name` property when
present, and otherwise the synthetic `Ligand_<position+1>`, where the
position is the record's block's zero-based position among all candidate
blocks of the split (assigned before skip-filtering, so skipped blocks
still count). -/
theorem C6_name_resolution (parse : Str → Option Mol) (sdf : Str)
    (r : LigandRecord) (hr : r ∈ parse_sdf_with_scores parse sdf) :
    ∃ mol : Mol, ∃ h : r.index < (pySplitOn dollarSep sdf).length,
      parse (pyStrip ((pySplitOn dollarSep sdf).get ⟨r.index, h⟩)) = some mol ∧
      r.name = (lookupProp mol.props nameKey).getD (ligandName r.index) := by
  have hr' : r ∈ processFrom parse 0 (pySplitOn dollarSep sdf) :=
    (List.mergeSort_perm _ _).mem_iff.mp hr
  obtain ⟨j, hj, hpb⟩ := mem_processFrom hr'
  have hpb' : processBlock parse j ((pySplitOn dollarSep sdf).get ⟨j, hj⟩) = some r := by
    simpa using hpb
  have hidx : r.index = j := by
    have := processBlock_index hpb
    omega
  obtain ⟨mol, hmol, hrec⟩ := processBlock_eq_some hpb'
  rw [hidx]
  refine ⟨mol, hj, hmol, ?_⟩
  rw [hrec]
  rfl

/-- Evaluation fact for the C6 witness: the loop yields exactly the one
record. -/
theorem w6_run : processFrom w6parse 0 (pySplitOn dollarSep w6sdf) = [w6rec] := rfl

/-- Evaluation fact for the C6 witness: the record is in the output. -/
theorem w6_mem : w6rec ∈ parse_sdf_with_scores w6parse w6sdf := by
  unfold parse_sdf_with_scores
  rw [w6_run]
  simp [sortByScore]

/-- C6 witness: membership holds at the concrete input, and the name
resolves from the `_Name` property of the parsed block. -/
theorem C6_witness :
    w6rec ∈ parse_sdf_with_scores w6parse w6sdf ∧
    ∃ mol : Mol, ∃ h : w6rec.index < (pySplitOn dollarSep w6sdf).length,
      w6parse (pyStrip ((pySplitOn dollarSep w6sdf).get ⟨w6rec.index, h⟩)) = some mol ∧
      w6rec.name = (lookupProp mol.props nameKey).getD (ligandName w6rec.index) :=
  ⟨w6_mem, C6_name_resolution w6parse w6sdf w6rec w6_mem⟩

/-- C7: an empty or whitespace-only input yields an empty output
sequence (and, the model being total, no error). -/
theorem C7_empty_or_ws_input (parse : Str → Option Mol) (s : Str)
    (hws : ∀ c ∈ s, c.isWhitespace = true) :
    parse_sdf_with_scores parse s = [] := by
  unfold parse_sdf_with_scores
  rw [pySplitOn, splitGo_dollar_ws hws, processFrom]
  have hnone : processBlock parse 0 s = none := by
    unfold processBlock
    rw [if_neg (fun hcon => hcon.1 (pyStrip_eq_nil hws))]
  rw [hnone]
  show sortByScore (processFrom parse 1 []) = []
  rw [processFrom]
  simp [sortByScore]

/-- C7 witness: the whitespace-only input `"  \n "` yields `[]`. -/
theorem C7_witness :
    (∀ c ∈ ("  \n ".data : Str), c.isWhitespace = true) ∧
    parse_sdf_with_scores w7parse "  \n ".data = [] :=
  ⟨by decide, C7_empty_or_ws_input w7parse "  \n ".data (by decide)⟩

/-- C8: a block whose chemistry parse fails produces no record at all,
and the records of the remaining blocks are exactly those obtained by
processing the other blocks independently, at their original positions. -/
theorem C8_failed_block_independence (parse : Str → Option Mol) (i : ℕ)
    (b : Str) (l₁ l₂ : List Str)
    (hfail : processBlock parse (i + l₁.length) b = none) :
    processFrom parse i (l₁ ++ b :: l₂) =
      processFrom parse i l₁ ++ processFrom parse (i + l₁.length + 1) l₂ := by
  rw [processFrom_append parse i l₁ (b :: l₂), processFrom, hfail]

/-- Evaluation fact for the C8 witness: the middle block fails. -/
theorem w8_fail : processBlock w8parse (0 + [w8good1].length) w8bad = none := by
  decide

/-- C8 witness: with the failing middle block, the loop output equals the
independent processing of the two surviving blocks. -/
theorem C8_witness :
    processBlock w8parse (0 + [w8good1].length) w8bad = none ∧
    processFrom w8parse 0 ([w8good1] ++ w8bad :: [w8good2]) =
      processFrom w8parse 0 [w8good1] ++
        processFrom w8parse (0 + [w8good1].length + 1) [w8good2] :=
  ⟨w8_fail, C8_failed_block_independence w8parse 0 w8bad [w8good1] [w8good2] w8_fail⟩

/-- C9: sorting by score is idempotent: sorting an already-sorted list
yields the identical list, in the same order. -/
theorem C9_sort_idempotent (l : List LigandRecord)
    (h : List.Chain' (fun a b : LigandRecord => a.score ≤ b.score) l) :
    sortByScore l = l := by
  haveI : IsTrans LigandRecord (fun a b : LigandRecord => a.score ≤ b.score) :=
    ⟨fun a b c hab hbc => le_trans hab hbc⟩
  have hp : List.Pairwise (fun a b : LigandRecord => a.score ≤ b.score) l :=
    List.chain'_iff_pairwise.mp h
  unfold sortByScore
  exact List.mergeSort_of_sorted (hp.imp (fun hab => by simpa [scoreLE] using hab))

/-- C9 witness: the two-record list is sorted and re-sorting returns it
unchanged. -/
theorem C9_witness :
    List.Chain' (fun a b : LigandRecord => a.score ≤ b.score) [w9a, w9b] ∧
    sortByScore [w9a, w9b] = [w9a, w9b] := by
  have hch : List.Chain' (fun a b : LigandRecord => a.score ≤ b.score) [w9a, w9b] := by
    simp only [List.chain'_cons, List.chain'_singleton, and_true]
    decide
  exact ⟨hch, C9_sort_idempotent [w9a, w9b] hch⟩

/-- C10: the step-1 property-key lookup is case-sensitive: a property
mapping that carries only case variants of the candidate keys (such as
`Score` or `DOCKING_SCORE`) and none of the exact keys makes step 1 fail,
even though the step-2 raw-text fallback lowers each line before testing
for the substring `"score"`. -/
theorem C10_case_sensitive_lookup (props : List (Str × Str)) (k v : Str)
    (hk : lookupProp props k = some v)
    (hcase : pyLower k ∈ score_keys.map pyLower)
    (hnot : ∀ k' ∈ score_keys, lookupProp props k' = none) :
    scoreFromProps score_keys props = none :=
  scoreFromProps_eq_none props score_keys hnot

/-- C10 witness: a mapping carrying only `Score` (a case variant of the
candidate key `score`) makes step 1 fail. -/
theorem C10_witness :
    lookupProp [("Score".data, "-7.0".data)] "Score".data = some "-7.0".data ∧
    pyLower "Score".data ∈ score_keys.map pyLower ∧
    (∀ k' ∈ score_keys, lookupProp [("Score".data, "-7.0".data)] k' = none) ∧
    scoreFromProps score_keys [("Score".data, "-7.0".data)] = none :=
  ⟨by decide, by decide, by decide,
    C10_case_sensitive_lookup [("Score".data, "-7.0".data)] "Score".data
      "-7.0".data (by decide) (by decide) (by decide)⟩

end VinaRedocker
